import Mathlib

/- Formal model of the platform-tag synchronization core of delocate
   (`delocate-addplat`).  The tag codec, the filename and manifest mergers
   and the archive rewriter are modelled from spec.md (their implementation
   lives in delocate/wheeltools.py, which is not among the provided source
   files; only its CLI driver and tests are).  The driver logic is
   translated from src/delocate/cmd/delocate_addplat.py. -/

namespace Delocate

/-- Strings are modelled as lists of characters. -/
abbrev Str := List Char

/-- Splitting a string on a separator character, as Python's `str.split`:
`splitOnChar c [] = [[]]` and every occurrence of `c` starts a new part. -/
def splitOnChar (c : Char) : Str → List Str
  | [] => [[]]
  | a :: as =>
    if a = c then [] :: splitOnChar c as
    else (a :: (splitOnChar c as).headI) :: (splitOnChar c as).tail

/-- Joining a list of parts with a separator character, as Python's
`sep.join`. -/
def joinChar (c : Char) : List Str → Str
  | [] => []
  | [p] => p
  | p :: q :: ps => p ++ c :: joinChar c (q :: ps)

/-- Deduplication keeping the first occurrence of each element, preserving
first-seen order. -/
def uniqueFirst {α : Type} [DecidableEq α] : List α → List α
  | [] => []
  | a :: l => a :: (uniqueFirst l).filter (fun b => decide (b ≠ a))

theorem mem_uniqueFirst {α : Type} [DecidableEq α] (l : List α) (a : α) :
    a ∈ uniqueFirst l ↔ a ∈ l := by
  induction l with
  | nil => simp [uniqueFirst]
  | cons x l ih =>
    simp only [uniqueFirst, List.mem_cons, List.mem_filter, ih,
      decide_eq_true_eq]
    constructor
    · rintro (rfl | ⟨h, _⟩)
      · exact Or.inl rfl
      · exact Or.inr h
    · rintro (rfl | h)
      · exact Or.inl rfl
      · by_cases hax : a = x
        · exact Or.inl hax
        · exact Or.inr ⟨h, hax⟩

theorem nodup_uniqueFirst {α : Type} [DecidableEq α] (l : List α) :
    (uniqueFirst l).Nodup := by
  induction l with
  | nil => simp [uniqueFirst]
  | cons x l ih =>
    refine List.Nodup.cons ?_ (ih.filter _)
    intro hx
    rcases List.mem_filter.mp hx with ⟨_, hne⟩
    exact (decide_eq_true_eq.mp hne) rfl

theorem splitOnChar_ne_nil (c : Char) (s : Str) : splitOnChar c s ≠ [] := by
  cases s with
  | nil => simp [splitOnChar]
  | cons a as =>
    by_cases h : a = c <;> simp [splitOnChar, h]

theorem splitOnChar_of_not_mem {c : Char} {p : Str} (h : c ∉ p) :
    splitOnChar c p = [p] := by
  induction p with
  | nil => rfl
  | cons a as ih =>
    have hac : a ≠ c := fun hh => h (hh ▸ List.mem_cons_self a as)
    have has : c ∉ as := fun hh => h (List.mem_cons_of_mem a hh)
    simp [splitOnChar, hac, ih has]

theorem splitOnChar_append {c : Char} {p : Str} (rest : Str) (h : c ∉ p) :
    splitOnChar c (p ++ c :: rest) = p :: splitOnChar c rest := by
  induction p with
  | nil => simp [splitOnChar]
  | cons a as ih =>
    have hac : a ≠ c := fun hh => h (hh ▸ List.mem_cons_self a as)
    have has : c ∉ as := fun hh => h (List.mem_cons_of_mem a hh)
    simp [splitOnChar, hac, ih has]

theorem splitOnChar_joinChar {c : Char} :
    ∀ parts : List Str, parts ≠ [] → (∀ p ∈ parts, c ∉ p) →
      splitOnChar c (joinChar c parts) = parts
  | [], h, _ => absurd rfl h
  | [p], _, hv => by
    simp only [joinChar]
    exact splitOnChar_of_not_mem (hv p (List.mem_singleton_self p))
  | p :: q :: ps, _, hv => by
    simp only [joinChar]
    rw [splitOnChar_append _ (hv p (List.mem_cons_self p _)),
      splitOnChar_joinChar (q :: ps) (List.cons_ne_nil q ps)
        (fun r hr => hv r (List.mem_cons_of_mem p hr))]

theorem not_mem_joinChar {c c' : Char} (hne : c' ≠ c) :
    ∀ parts : List Str, (∀ p ∈ parts, c' ∉ p) → c' ∉ joinChar c parts
  | [], _ => by simp [joinChar]
  | [p], hv => by
    simpa [joinChar] using hv p (List.mem_singleton_self p)
  | p :: q :: ps, hv => by
    simp only [joinChar, List.mem_append, List.mem_cons]
    rintro (h | h | h)
    · exact hv p (List.mem_cons_self p _) h
    · exact hne h
    · exact not_mem_joinChar hne (q :: ps)
        (fun r hr => hv r (List.mem_cons_of_mem p hr)) h

/-- Modelled from the spec: the error taxonomy of the tag-synchronization
core (spec.md section 7), plus the two conditions the core checks before
doing any work (an empty request, a missing source archive). -/
inductive WheelError where
  | MalformedFilenameError
  | MalformedTagError
  | PureArchiveError
  | DestinationExistsError
  | EmptyRequestError
  | ArchiveNotFoundError
deriving DecidableEq

/-- Sorting a list of sub-tags lexicographically (Python sorts strings by
code points, which is the lexicographic order on `List Char`). -/
def sortTags (l : List Str) : List Str := List.insertionSort (· ≤ ·) l

/-- Modelled from the spec: `parse_compound` (spec.md section 4.1, from the
missing delocate/wheeltools.py) splits on `.` and fails with
`MalformedTagError` if any sub-tag is empty. -/
def parse_compound (s : Str) : Except WheelError (List Str) :=
  let parts := splitOnChar '.' s
  if parts.any (fun p => p.isEmpty) then .error .MalformedTagError
  else .ok parts

/-- Modelled from the spec: `serialize_compound` (spec.md section 4.1, from
the missing delocate/wheeltools.py) sorts sub-tags lexicographically and
joins them with `.`. -/
def serialize_compound (tags : List Str) : Str := joinChar '.' (sortTags tags)

/-- Modelled from the spec: a `PackageIdentity` (spec.md section 3) is the
5-tuple parsed from an archive filename stem. -/
structure PackageIdentity where
  name : Str
  version : Str
  python_tag : Str
  abi_tag : Str
  platform_tag : List Str
deriving DecidableEq

/-- Modelled from the spec: `parse_identity` (spec.md section 4.1, from the
missing delocate/wheeltools.py) splits the stem on `-` into exactly five
components and parses the platform component as a compound tag. -/
def parse_identity (stem : Str) : Except WheelError PackageIdentity :=
  match splitOnChar '-' stem with
  | [n, v, py, abi, plat] =>
    match parse_compound plat with
    | .error e => .error e
    | .ok tags =>
      .ok { name := n, version := v, python_tag := py, abi_tag := abi,
            platform_tag := tags }
  | _ => .error .MalformedFilenameError

/-- Serialization of a `PackageIdentity` back to a filename stem (spec.md
section 3: `name-version-python_tag-abi_tag-platform_tag`). -/
def serialize_identity (i : PackageIdentity) : Str :=
  joinChar '-'
    [i.name, i.version, i.python_tag, i.abi_tag,
     serialize_compound i.platform_tag]

/-- The sentinel platform sub-tag of a pure archive. -/
def anyTag : Str := ['a', 'n', 'y']

/-- Modelled from the spec: `is_pure` (spec.md section 4.1, from the missing
delocate/wheeltools.py) is true iff the platform-tag compound set is exactly
the singleton containing `any`. -/
def is_pure (i : PackageIdentity) : Bool :=
  decide (uniqueFirst i.platform_tag = [anyTag])

/-- Validity invariant of a sub-tag (spec.md section 3): non-empty, no `.`. -/
def validSubTag (t : Str) : Prop := t ≠ [] ∧ '.' ∉ t

instance (t : Str) : Decidable (validSubTag t) := by
  unfold validSubTag; exact inferInstance

/-- Validity invariant of a parsed identity (spec.md section 3): the dash is
a separator so components cannot contain it, and the platform compound set
is a non-empty set of valid dash-free sub-tags. -/
def validIdentity (i : PackageIdentity) : Prop :=
  '-' ∉ i.name ∧ '-' ∉ i.version ∧ '-' ∉ i.python_tag ∧ '-' ∉ i.abi_tag ∧
    i.platform_tag ≠ [] ∧ ∀ t ∈ i.platform_tag, validSubTag t ∧ '-' ∉ t

instance (i : PackageIdentity) : Decidable (validIdentity i) := by
  unfold validIdentity; exact inferInstance

theorem mem_sortTags {l : List Str} {x : Str} : x ∈ sortTags l ↔ x ∈ l :=
  List.mem_insertionSort _

theorem sorted_sortTags (l : List Str) : List.Sorted (· ≤ ·) (sortTags l) :=
  List.sorted_insertionSort _ l

theorem nodup_sortTags {l : List Str} (h : l.Nodup) : (sortTags l).Nodup :=
  (List.perm_insertionSort _ l).nodup_iff.mpr h

theorem parse_serialize_compound (s : List Str) (hne : s ≠ [])
    (hv : ∀ t ∈ s, validSubTag t) :
    parse_compound (serialize_compound s) = .ok (sortTags s) := by
  have hperm : (sortTags s).Perm s := List.perm_insertionSort _ s
  have hsne : sortTags s ≠ [] := by
    intro h0
    rw [h0] at hperm
    exact hne hperm.nil_eq.symm
  have hsv : ∀ t ∈ sortTags s, validSubTag t :=
    fun t ht => hv t (mem_sortTags.mp ht)
  have hsplit : splitOnChar '.' (joinChar '.' (sortTags s)) = sortTags s :=
    splitOnChar_joinChar (sortTags s) hsne (fun p hp => (hsv p hp).2)
  simp only [parse_compound, serialize_compound, hsplit]
  rw [if_neg]
  simp only [List.any_eq_true, not_exists]
  intro p
  rintro ⟨hp, hemp⟩
  exact absurd (List.isEmpty_iff.mp hemp) (hsv p hp).1

theorem parse_serialize_identity (i : PackageIdentity) (h : validIdentity i) :
    parse_identity (serialize_identity i) =
      .ok { i with platform_tag := sortTags i.platform_tag } := by
  obtain ⟨hn, hv, hpy, habi, hne, htags⟩ := h
  have hsc : '-' ∉ serialize_compound i.platform_tag := by
    refine not_mem_joinChar (by decide) (sortTags i.platform_tag) ?_
    intro p hp
    exact (htags p (mem_sortTags.mp hp)).2
  have hsplit : splitOnChar '-' (serialize_identity i) =
      [i.name, i.version, i.python_tag, i.abi_tag,
       serialize_compound i.platform_tag] := by
    refine splitOnChar_joinChar _ (by simp) ?_
    intro p hp
    simp only [List.mem_cons, List.mem_singleton] at hp
    rcases hp with rfl | rfl | rfl | rfl | rfl | h
    · exact hn
    · exact hv
    · exact hpy
    · exact habi
    · exact hsc
    · exact absurd h (List.not_mem_nil p)
  have hpc : parse_compound (serialize_compound i.platform_tag) =
      .ok (sortTags i.platform_tag) :=
    parse_serialize_compound i.platform_tag hne (fun t ht => (htags t ht).1)
  simp [parse_identity, hsplit, hpc]

/-- Claim C7: for every non-empty set of valid sub-tags (each non-empty,
containing no dot), parsing the serialization returns exactly the sorted
version of the set: `serialize_compound` and `parse_compound` are mutually
inverse up to canonical ordering. -/
theorem claim_C7_roundtrip (s : List Str) (hne : s ≠ []) (hnd : s.Nodup)
    (hv : ∀ t ∈ s, validSubTag t) :
    parse_compound (serialize_compound s) = .ok (sortTags s) ∧
      (sortTags s).Perm s ∧ List.Sorted (· ≤ ·) (sortTags s) ∧
      (sortTags s).Nodup :=
  ⟨parse_serialize_compound s hne hv, List.perm_insertionSort _ s,
    sorted_sortTags s, nodup_sortTags hnd⟩

/-- Witness for claim C7 at a concrete two-element sub-tag set. -/
theorem claim_C7_witness :
    parse_compound (serialize_compound [['b'], ['a']]) =
        .ok (sortTags [['b'], ['a']]) ∧
      (sortTags [['b'], ['a']]).Perm [['b'], ['a']] ∧
      List.Sorted (· ≤ ·) (sortTags [['b'], ['a']]) ∧
      (sortTags [['b'], ['a']]).Nodup :=
  claim_C7_roundtrip [['b'], ['a']] (by decide) (by decide) (by decide)

/-- Modelled from the spec: the outcome of the filename tag merger (spec.md
section 4.2, from the missing delocate/wheeltools.py). -/
inductive FilenameOutcome where
  | Unchanged
  | Renamed (new_identity : PackageIdentity)
deriving DecidableEq

/-- Union of an existing platform compound set with the requested sub-tags:
existing sub-tags first, then the requested ones not already present, first
occurrence kept (spec.md section 4.2: addition is a set union). -/
def mergedPlat (plat req : List Str) : List Str :=
  plat ++ uniqueFirst (req.filter (fun t => decide (t ∉ plat)))

/-- Modelled from the spec: the filename tag merger (spec.md section 4.2,
from the missing delocate/wheeltools.py).  Fails with `PureArchiveError` if
the archive is pure and the request non-empty; returns `Unchanged` when
every requested sub-tag is already present, else `Renamed` carrying the
identity with the unioned platform compound set. -/
def merge_filename (i : PackageIdentity) (req : List Str) :
    Except WheelError FilenameOutcome :=
  if is_pure i = true ∧ req ≠ [] then .error .PureArchiveError
  else if ∀ t ∈ req, t ∈ i.platform_tag then .ok .Unchanged
  else .ok (.Renamed { i with platform_tag := mergedPlat i.platform_tag req })

theorem mem_mergedPlat {plat req : List Str} {x : Str} :
    x ∈ mergedPlat plat req ↔ x ∈ plat ∨ x ∈ req := by
  simp only [mergedPlat, List.mem_append, mem_uniqueFirst, List.mem_filter,
    decide_eq_true_eq]
  constructor
  · rintro (h | ⟨h, _⟩)
    · exact Or.inl h
    · exact Or.inr h
  · rintro (h | h)
    · exact Or.inl h
    · by_cases hp : x ∈ plat
      · exact Or.inl hp
      · exact Or.inr ⟨h, hp⟩

theorem nodup_mergedPlat {plat : List Str} (req : List Str)
    (h : plat.Nodup) : (mergedPlat plat req).Nodup := by
  refine List.Nodup.append h (nodup_uniqueFirst _) ?_
  intro x hx hx'
  rcases List.mem_filter.mp ((mem_uniqueFirst _ x).mp hx') with ⟨_, hdec⟩
  exact (decide_eq_true_eq.mp hdec) hx

theorem mergedPlat_of_sub {plat req : List Str}
    (h : ∀ t ∈ req, t ∈ plat) : mergedPlat plat req = plat := by
  have : req.filter (fun t => decide (t ∉ plat)) = [] := by
    refine List.filter_eq_nil_iff.mpr ?_
    intro t ht
    simp [h t ht]
  unfold mergedPlat
  rw [this]
  simp [uniqueFirst]

theorem merge_filename_not_pure {i : PackageIdentity} {req : List Str}
    {fo : FilenameOutcome} (hreq : req ≠ [])
    (h : merge_filename i req = .ok fo) : is_pure i = false := by
  by_contra hp
  rw [Bool.not_eq_false] at hp
  simp [merge_filename, hp, hreq] at h

theorem merge_filename_unchanged {i : PackageIdentity} {req : List Str}
    (hp : ¬(is_pure i = true ∧ req ≠ []))
    (hall : ∀ t ∈ req, t ∈ i.platform_tag) :
    merge_filename i req = .ok .Unchanged := by
  rw [merge_filename, if_neg hp, if_pos hall]

theorem merge_filename_renamed {i : PackageIdentity} {req : List Str}
    {j : PackageIdentity} (h : merge_filename i req = .ok (.Renamed j)) :
    j = { i with platform_tag := mergedPlat i.platform_tag req } ∧
      ¬∀ t ∈ req, t ∈ i.platform_tag := by
  rw [merge_filename] at h
  split_ifs at h with h1 h2
  · exact FilenameOutcome.noConfusion (Except.ok.inj h)
  · exact ⟨(FilenameOutcome.Renamed.inj (Except.ok.inj h)).symm, h2⟩

/-- Modelled from the spec: a manifest `Tag:` line records one
`(python_tag, abi_tag, platform_sub_tag)` triple (spec.md section 3). -/
structure TagTriple where
  py : Str
  abi : Str
  plat : Str
deriving DecidableEq

/-- Modelled from the spec: one line of the manifest text — either a `Tag:`
line or any other metadata line, passed through untouched (spec.md
section 4.3). -/
inductive WheelLine where
  | tag (t : TagTriple)
  | other (s : Str)
deriving DecidableEq

/-- The tag triples recorded in a manifest, in line order. -/
def tagLines (m : List WheelLine) : List TagTriple :=
  m.filterMap (fun l => match l with | .tag t => some t | .other _ => none)

/-- The distinct `(python_tag, abi_tag)` pairs of a manifest, in the order
first seen (spec.md section 4.3). -/
def pairsSeen (m : List WheelLine) : List (Str × Str) :=
  uniqueFirst ((tagLines m).map (fun t => (t.py, t.abi)))

/-- The cross product of the distinct `(python_tag, abi_tag)` pairs with the
requested platform sub-tags (spec.md section 4.3): pairs in first-seen
order, sub-tags in request order. -/
def candidateTriples (m : List WheelLine) (req : List Str) : List TagTriple :=
  (pairsSeen m).flatMap
    (fun pr => req.map (fun t => { py := pr.1, abi := pr.2, plat := t }))

/-- The candidate triples not already present in the manifest, duplicates
removed, in stable order (spec.md section 4.3). -/
def newTagLines (m : List WheelLine) (req : List Str) : List TagTriple :=
  (uniqueFirst (candidateTriples m req)).filter
    (fun t => decide (t ∉ tagLines m))

/-- Whether a manifest fragment contains any `Tag:` line. -/
def hasTagLine (m : List WheelLine) : Bool :=
  m.any (fun l => match l with | .tag _ => true | .other _ => false)

/-- Insertion of new lines directly after the last existing `Tag:` line of
the manifest, leaving every original line in place (spec.md section 4.3);
with no tag line present the new lines go at the end. -/
def insertAfterLastTag (new : List WheelLine) :
    List WheelLine → List WheelLine
  | [] => new
  | l :: rest =>
    if hasTagLine rest then l :: insertAfterLastTag new rest
    else
      match l with
      | .tag _ => l :: (new ++ rest)
      | .other _ => l :: insertAfterLastTag new rest

/-- Modelled from the spec: the manifest tag merger (spec.md section 4.3,
from the missing delocate/wheeltools.py).  Appends the missing candidate
triples after the last existing tag line; the boolean reports whether the
manifest changed. -/
def merge_manifest (m : List WheelLine) (req : List Str) :
    List WheelLine × Bool :=
  let nt := newTagLines m req
  if nt = [] then (m, false)
  else (insertAfterLastTag (nt.map WheelLine.tag) m, true)

theorem tagLines_append (l1 l2 : List WheelLine) :
    tagLines (l1 ++ l2) = tagLines l1 ++ tagLines l2 :=
  List.filterMap_append l1 l2 _

theorem tagLines_map_tag (ts : List TagTriple) :
    tagLines (ts.map WheelLine.tag) = ts := by
  induction ts with
  | nil => rfl
  | cons t ts ih => simp [tagLines] at ih ⊢; exact ih

theorem tagLines_of_hasTagLine_false {m : List WheelLine}
    (h : hasTagLine m = false) : tagLines m = [] := by
  induction m with
  | nil => rfl
  | cons l rest ih =>
    simp only [hasTagLine, List.any_cons, Bool.or_eq_false_iff] at h
    cases l with
    | tag t => simp at h
    | other s =>
      simp only [tagLines, List.filterMap_cons]
      exact ih h.2

theorem insertAfterLastTag_split (new : List WheelLine) :
    ∀ m : List WheelLine, ∃ pre suf, m = pre ++ suf ∧
      hasTagLine suf = false ∧
      insertAfterLastTag new m = pre ++ (new ++ suf)
  | [] => ⟨[], [], rfl, rfl, by simp [insertAfterLastTag]⟩
  | l :: rest => by
    by_cases h : hasTagLine rest = true
    · obtain ⟨pre, suf, h1, h2, h3⟩ := insertAfterLastTag_split new rest
      exact ⟨l :: pre, suf, by simp [h1], h2,
        by simp [insertAfterLastTag, h, h3]⟩
    · rw [Bool.not_eq_true] at h
      cases l with
      | tag t =>
        exact ⟨[WheelLine.tag t], rest, rfl, h,
          by simp [insertAfterLastTag, h]⟩
      | other s =>
        obtain ⟨pre, suf, h1, h2, h3⟩ := insertAfterLastTag_split new rest
        exact ⟨WheelLine.other s :: pre, suf, by simp [h1], h2,
          by simp [insertAfterLastTag, h, h3]⟩

theorem tagLines_insertAfterLastTag (new : List WheelLine)
    (m : List WheelLine) :
    tagLines (insertAfterLastTag new m) = tagLines m ++ tagLines new := by
  obtain ⟨pre, suf, h1, h2, h3⟩ := insertAfterLastTag_split new m
  rw [h3, h1, tagLines_append, tagLines_append, tagLines_append,
    tagLines_of_hasTagLine_false h2]
  simp

theorem mem_candidateTriples {m : List WheelLine} {req : List Str}
    {c : TagTriple} :
    c ∈ candidateTriples m req ↔
      (c.py, c.abi) ∈ (tagLines m).map (fun t => (t.py, t.abi)) ∧
        c.plat ∈ req := by
  simp only [candidateTriples, List.mem_flatMap, List.mem_map, pairsSeen,
    mem_uniqueFirst]
  constructor
  · rintro ⟨pr, hpr, t, ht, rfl⟩
    exact ⟨hpr, ht⟩
  · rintro ⟨hpr, ht⟩
    exact ⟨(c.py, c.abi), hpr, c.plat, ht, rfl⟩

theorem mem_newTagLines {m : List WheelLine} {req : List Str}
    {c : TagTriple} :
    c ∈ newTagLines m req ↔
      c ∈ candidateTriples m req ∧ c ∉ tagLines m := by
  simp [newTagLines, List.mem_filter, mem_uniqueFirst]

theorem newTagLines_eq_nil_iff {m : List WheelLine} {req : List Str} :
    newTagLines m req = [] ↔
      ∀ c ∈ candidateTriples m req, c ∈ tagLines m := by
  rw [List.eq_nil_iff_forall_not_mem]
  constructor
  · intro h c hc
    by_contra hmem
    exact h c (mem_newTagLines.mpr ⟨hc, hmem⟩)
  · intro h c hc
    rcases mem_newTagLines.mp hc with ⟨h1, h2⟩
    exact h2 (h c h1)

theorem nodup_newTagLines (m : List WheelLine) (req : List Str) :
    (newTagLines m req).Nodup :=
  (nodup_uniqueFirst _).filter _

theorem merge_manifest_of_nil {m : List WheelLine} {req : List Str}
    (h : newTagLines m req = []) : merge_manifest m req = (m, false) := by
  simp [merge_manifest, h]

theorem merge_manifest_of_ne {m : List WheelLine} {req : List Str}
    (h : newTagLines m req ≠ []) :
    merge_manifest m req =
      (insertAfterLastTag ((newTagLines m req).map WheelLine.tag) m,
       true) := by
  simp [merge_manifest, h]

theorem tagLines_merge_manifest (m : List WheelLine) (req : List Str) :
    tagLines (merge_manifest m req).1 = tagLines m ++ newTagLines m req := by
  by_cases h : newTagLines m req = []
  · simp [merge_manifest_of_nil h, h]
  · rw [merge_manifest_of_ne h, tagLines_insertAfterLastTag, tagLines_map_tag]

theorem merge_manifest_idem (m : List WheelLine) (req : List Str) :
    merge_manifest (merge_manifest m req).1 req =
      ((merge_manifest m req).1, false) := by
  refine merge_manifest_of_nil (newTagLines_eq_nil_iff.mpr ?_)
  intro c hc
  rcases mem_candidateTriples.mp hc with ⟨hpair, hplat⟩
  rw [tagLines_merge_manifest, List.map_append, List.mem_append] at hpair
  have hpair' : (c.py, c.abi) ∈ (tagLines m).map (fun t => (t.py, t.abi)) := by
    rcases hpair with h1 | h1
    · exact h1
    · rcases List.mem_map.mp h1 with ⟨d, hd, hde⟩
      rcases mem_candidateTriples.mp (mem_newTagLines.mp hd).1 with ⟨hd1, _⟩
      rw [← hde]
      exact hd1
  have hcand : c ∈ candidateTriples m req :=
    mem_candidateTriples.mpr ⟨hpair', hplat⟩
  rw [tagLines_merge_manifest, List.mem_append]
  by_cases hmem : c ∈ tagLines m
  · exact Or.inl hmem
  · exact Or.inr (mem_newTagLines.mpr ⟨hcand, hmem⟩)

/-- Claim C6: the mergers take unions, never duplicating — a merged filename
compound set has no duplicate sub-tag, a merged manifest has no duplicate
tag triple — and the manifest merger is append-only: every pre-existing line
survives in its original order, the new tag lines being inserted directly
after the last existing tag line (the remaining suffix contains no tag
line). -/
theorem claim_C6_union_append_only (plat req : List Str)
    (m : List WheelLine) (hplat : plat.Nodup)
    (hm : (tagLines m).Nodup) :
    (mergedPlat plat req).Nodup ∧
      (tagLines (merge_manifest m req).1).Nodup ∧
      ∃ pre suf, m = pre ++ suf ∧ hasTagLine suf = false ∧
        (merge_manifest m req).1 =
          pre ++ ((newTagLines m req).map WheelLine.tag ++ suf) := by
  refine ⟨nodup_mergedPlat req hplat, ?_, ?_⟩
  · rw [tagLines_merge_manifest]
    refine List.Nodup.append hm (nodup_newTagLines m req) ?_
    intro c hc hc'
    exact (mem_newTagLines.mp hc').2 hc
  · by_cases h : newTagLines m req = []
    · exact ⟨m, [], by simp, rfl, by simp [merge_manifest_of_nil h, h]⟩
    · obtain ⟨pre, suf, h1, h2, h3⟩ :=
        insertAfterLastTag_split ((newTagLines m req).map WheelLine.tag) m
      exact ⟨pre, suf, h1, h2, by rw [merge_manifest_of_ne h]; exact h3⟩

/-- Witness for claim C6 at a concrete manifest and request. -/
theorem claim_C6_witness :
    (mergedPlat [['a']] [['b'], ['b']]).Nodup ∧
      (tagLines (merge_manifest
        [WheelLine.other ['g'],
         WheelLine.tag { py := ['c'], abi := ['d'], plat := ['a'] }]
        [['b'], ['b']]).1).Nodup ∧
      ∃ pre suf,
        [WheelLine.other ['g'],
         WheelLine.tag { py := ['c'], abi := ['d'], plat := ['a'] }] =
            pre ++ suf ∧
          hasTagLine suf = false ∧
          (merge_manifest
            [WheelLine.other ['g'],
             WheelLine.tag { py := ['c'], abi := ['d'], plat := ['a'] }]
            [['b'], ['b']]).1 =
            pre ++ ((newTagLines
              [WheelLine.other ['g'],
               WheelLine.tag { py := ['c'], abi := ['d'], plat := ['a'] }]
              [['b'], ['b']]).map WheelLine.tag ++ suf) :=
  claim_C6_union_append_only [['a']] [['b'], ['b']]
    [WheelLine.other ['g'],
     WheelLine.tag { py := ['c'], abi := ['d'], plat := ['a'] }]
    (by decide) (by decide)

/-- The filename an archive is written under: an unchanged merge keeps the
source filename verbatim, a rename serializes the new identity (spec.md
section 4.4: the filename component always reflects the filename merger's
decision, possibly equal to the source filename). -/
def out_fname (src_fname : Str) (fo : FilenameOutcome) : Str :=
  match fo with
  | .Unchanged => src_fname
  | .Renamed j => serialize_identity j

theorem validIdentity_merged {i : PackageIdentity} {r : List Str}
    (hval : validIdentity i) (hr : ∀ t ∈ r, validSubTag t ∧ '-' ∉ t) :
    validIdentity { i with platform_tag := mergedPlat i.platform_tag r } := by
  obtain ⟨hn, hv, hpy, habi, hne, htags⟩ := hval
  refine ⟨hn, hv, hpy, habi, ?_, ?_⟩
  · intro h0
    unfold mergedPlat at h0
    exact hne (List.append_eq_nil.mp h0).1
  · intro t ht
    rcases mem_mergedPlat.mp ht with h1 | h1
    · exact htags t h1
    · exact hr t h1

/-- Claim C4: for every valid identity and every request of valid sub-tags,
the platform-tag component of the output filename is the lexicographically
sorted, dot-joined union of the original and requested sub-tags (stated by
parsing the output filename back: its platform component is exactly the
sorted, duplicate-free list whose members are the union), and permuting the
requested tags does not change the output filename. -/
theorem claim_C4_sorted_union (i : PackageIdentity) (req req' : List Str)
    (hval : validIdentity i) (hnd : i.platform_tag.Nodup)
    (hpure : is_pure i = false)
    (hreqv : ∀ t ∈ req, validSubTag t ∧ '-' ∉ t)
    (hperm : req.Perm req') :
    (∃ fo, merge_filename i req = .ok fo ∧
      parse_identity (out_fname (serialize_identity i) fo) =
        .ok { i with
              platform_tag := sortTags (mergedPlat i.platform_tag req) } ∧
      List.Sorted (· ≤ ·) (sortTags (mergedPlat i.platform_tag req)) ∧
      (sortTags (mergedPlat i.platform_tag req)).Nodup ∧
      ∀ x, x ∈ sortTags (mergedPlat i.platform_tag req) ↔
        x ∈ i.platform_tag ∨ x ∈ req) ∧
    ∀ fo fo', merge_filename i req = .ok fo →
      merge_filename i req' = .ok fo' →
      out_fname (serialize_identity i) fo =
        out_fname (serialize_identity i) fo' := by
  have hp : ¬(is_pure i = true ∧ req ≠ []) := by
    rintro ⟨h1, _⟩
    rw [hpure] at h1
    exact Bool.false_ne_true h1
  have hp' : ¬(is_pure i = true ∧ req' ≠ []) := by
    rintro ⟨h1, _⟩
    rw [hpure] at h1
    exact Bool.false_ne_true h1
  constructor
  · by_cases hall : ∀ t ∈ req, t ∈ i.platform_tag
    · refine ⟨.Unchanged, merge_filename_unchanged hp hall, ?_,
        sorted_sortTags _, nodup_sortTags (nodup_mergedPlat req hnd),
        fun x => mem_sortTags.trans mem_mergedPlat⟩
      rw [mergedPlat_of_sub hall]
      exact parse_serialize_identity i hval
    · refine ⟨.Renamed { i with platform_tag := mergedPlat i.platform_tag req },
        ?_, ?_, sorted_sortTags _, nodup_sortTags (nodup_mergedPlat req hnd),
        fun x => mem_sortTags.trans mem_mergedPlat⟩
      · rw [merge_filename, if_neg hp, if_neg hall]
      · exact parse_serialize_identity _ (validIdentity_merged hval hreqv)
  · intro fo fo' h h'
    by_cases hall : ∀ t ∈ req, t ∈ i.platform_tag
    · have hall' : ∀ t ∈ req', t ∈ i.platform_tag := fun t ht =>
        hall t (hperm.mem_iff.mpr ht)
      rw [merge_filename_unchanged hp hall] at h
      rw [merge_filename_unchanged hp' hall'] at h'
      cases Except.ok.inj h
      cases Except.ok.inj h'
      rfl
    · have hall' : ¬∀ t ∈ req', t ∈ i.platform_tag := fun hc =>
        hall (fun t ht => hc t (hperm.mem_iff.mp ht))
      rw [merge_filename, if_neg hp, if_neg hall] at h
      rw [merge_filename, if_neg hp', if_neg hall'] at h'
      cases Except.ok.inj h
      cases Except.ok.inj h'
      have hsort : sortTags (mergedPlat i.platform_tag req) =
          sortTags (mergedPlat i.platform_tag req') := by
        refine List.eq_of_perm_of_sorted ?_ (sorted_sortTags _)
          (sorted_sortTags _)
        refine ((List.perm_insertionSort _ _).trans ?_).trans
          (List.perm_insertionSort _ _).symm
        refine (List.perm_ext_iff_of_nodup (nodup_mergedPlat req hnd)
          (nodup_mergedPlat req' hnd)).mpr ?_
        intro a
        rw [mem_mergedPlat, mem_mergedPlat, hperm.mem_iff]
      simp [out_fname, serialize_identity, serialize_compound, hsort]

/-- Witness for claim C4 at a concrete identity with an unsorted platform
compound and two permuted requests. -/
theorem claim_C4_witness :
    (∃ fo,
      merge_filename
          { name := ['p'], version := ['1'], python_tag := ['c'],
            abi_tag := ['d'], platform_tag := [['f'], ['e']] }
          [['g'], ['e']] = .ok fo ∧
      parse_identity (out_fname (serialize_identity
          { name := ['p'], version := ['1'], python_tag := ['c'],
            abi_tag := ['d'], platform_tag := [['f'], ['e']] }) fo) =
        .ok { name := ['p'], version := ['1'], python_tag := ['c'],
              abi_tag := ['d'],
              platform_tag :=
                sortTags (mergedPlat [['f'], ['e']] [['g'], ['e']]) } ∧
      List.Sorted (· ≤ ·)
        (sortTags (mergedPlat [['f'], ['e']] [['g'], ['e']])) ∧
      (sortTags (mergedPlat [['f'], ['e']] [['g'], ['e']])).Nodup ∧
      ∀ x, x ∈ sortTags (mergedPlat [['f'], ['e']] [['g'], ['e']]) ↔
        x ∈ [['f'], ['e']] ∨ x ∈ ([['g'], ['e']] : List Str)) ∧
    ∀ fo fo',
      merge_filename
          { name := ['p'], version := ['1'], python_tag := ['c'],
            abi_tag := ['d'], platform_tag := [['f'], ['e']] }
          [['g'], ['e']] = .ok fo →
      merge_filename
          { name := ['p'], version := ['1'], python_tag := ['c'],
            abi_tag := ['d'], platform_tag := [['f'], ['e']] }
          [['e'], ['g']] = .ok fo' →
      out_fname (serialize_identity
          { name := ['p'], version := ['1'], python_tag := ['c'],
            abi_tag := ['d'], platform_tag := [['f'], ['e']] }) fo =
        out_fname (serialize_identity
          { name := ['p'], version := ['1'], python_tag := ['c'],
            abi_tag := ['d'], platform_tag := [['f'], ['e']] }) fo' :=
  claim_C4_sorted_union
    { name := ['p'], version := ['1'], python_tag := ['c'],
      abi_tag := ['d'], platform_tag := [['f'], ['e']] }
    [['g'], ['e']] [['e'], ['g']]
    (by decide) (by decide) (by decide) (by decide) (by decide)

/-- A filesystem path, split into the containing directory and the archive
filename stem (the constant `.whl` extension is not modelled as no claim
concerns it). -/
structure WPath where
  dir : Str
  fname : Str
deriving DecidableEq

/-- Modelled from the spec: an archive is its manifest plus the remaining
entries, which the rewriter copies through unchanged (spec.md
section 4.4). -/
structure Archive where
  manifest : List WheelLine
  payload : List (Str × Str)
deriving DecidableEq

/-- The filesystem, as a finite map from paths to archives. -/
abbrev FS := List (WPath × Archive)

def lookupFS (fs : FS) (p : WPath) : Option Archive :=
  match fs with
  | [] => none
  | (q, a) :: rest => if q = p then some a else lookupFS rest p

def insertFS (fs : FS) (p : WPath) (a : Archive) : FS :=
  (p, a) :: fs.filter (fun e => decide (e.1 ≠ p))

theorem lookupFS_insertFS_self (fs : FS) (p : WPath) (a : Archive) :
    lookupFS (insertFS fs p a) p = some a := by
  simp [insertFS, lookupFS]

/-- The destination resolution rule (spec.md section 4.4): the explicit
output directory if configured, else the source's directory; the filename
reflects the filename merger's decision. -/
def resolve_dest (src : WPath) (output_dir : Option Str) (fname : Str) :
    WPath :=
  { dir := output_dir.getD src.dir, fname := fname }

/-- Modelled from the spec: `synchronize_tags` (spec.md sections 4.4 and 6,
from the missing delocate/wheeltools.py `add_platforms`).  Rejects an empty
request (spec.md section 9), parses the source filename, merges the
filename and the manifest independently, resolves the destination, performs
no I/O when neither changed and the destination is the source itself,
guards a pre-existing distinct destination behind `clobber`, and otherwise
writes the patched archive to the destination.  The returned pair is the
outcome (the written path, `none` for a no-op, or the error) together with
the resulting filesystem; every error leaves the filesystem untouched
(spec.md section 7: all-or-nothing). -/
def synchronize_tags (fs : FS) (src : WPath) (req : List Str)
    (output_dir : Option Str) (clobber : Bool) :
    Except WheelError (Option WPath) × FS :=
  if req = [] then (.error .EmptyRequestError, fs)
  else
    match lookupFS fs src with
    | none => (.error .ArchiveNotFoundError, fs)
    | some arch =>
      match parse_identity src.fname with
      | .error e => (.error e, fs)
      | .ok i =>
        match merge_filename i req with
        | .error e => (.error e, fs)
        | .ok fo =>
          if (merge_manifest arch.manifest req).2 = false ∧
              resolve_dest src output_dir (out_fname src.fname fo) = src then
            (.ok none, fs)
          else if (lookupFS fs (resolve_dest src output_dir
                (out_fname src.fname fo))).isSome = true ∧
              resolve_dest src output_dir (out_fname src.fname fo) ≠ src ∧
              clobber = false then
            (.error .DestinationExistsError, fs)
          else
            (.ok (some (resolve_dest src output_dir
                (out_fname src.fname fo))),
             insertFS fs (resolve_dest src output_dir (out_fname src.fname fo))
               { arch with
                 manifest := (merge_manifest arch.manifest req).1 })

/-- Claim C1: for every archive whose platform compound set is exactly
`any` (a pure archive) and every non-empty request, `synchronize_tags`
fails with `PureArchiveError` and the filesystem is unchanged: the archive
on disk is untouched and no output file is created. -/
theorem claim_C1_pure_guard (fs : FS) (src : WPath) (req : List Str)
    (output_dir : Option Str) (clobber : Bool) (arch : Archive)
    (i : PackageIdentity) (hlook : lookupFS fs src = some arch)
    (hparse : parse_identity src.fname = .ok i)
    (hpure : is_pure i = true) (hreq : req ≠ []) :
    synchronize_tags fs src req output_dir clobber =
      (.error .PureArchiveError, fs) := by
  have hmf : merge_filename i req = .error .PureArchiveError := by
    rw [merge_filename, if_pos ⟨hpure, hreq⟩]
  simp [synchronize_tags, hreq, hlook, hparse, hmf]

/-- Witness for claim C1: a one-archive filesystem holding a pure archive
stem `p-1-c-d-any` and a singleton request. -/
theorem claim_C1_witness :
    synchronize_tags
        [({ dir := ['t'], fname :=
              ['p', '-', '1', '-', 'c', '-', 'd', '-', 'a', 'n', 'y'] },
          { manifest := [], payload := [] })]
        { dir := ['t'], fname :=
            ['p', '-', '1', '-', 'c', '-', 'd', '-', 'a', 'n', 'y'] }
        [['f']] none false =
      (.error .PureArchiveError,
       [({ dir := ['t'], fname :=
             ['p', '-', '1', '-', 'c', '-', 'd', '-', 'a', 'n', 'y'] },
         { manifest := [], payload := [] })]) :=
  claim_C1_pure_guard _ _ _ _ _
    { manifest := [], payload := [] }
    { name := ['p'], version := ['1'], python_tag := ['c'],
      abi_tag := ['d'], platform_tag := [['a', 'n', 'y']] }
    (by decide) rfl (by decide) (by decide)

/-- Claim C2: when the resolved destination already holds an archive, is
not the source path itself, and `clobber` is false, the rewrite fails with
`DestinationExistsError` and writes nothing; with `clobber` true under the
same conditions the pre-existing destination is fully replaced by the
patched source archive. -/
theorem claim_C2_clobber_guard (fs : FS) (src : WPath) (req : List Str)
    (output_dir : Option Str) (arch old : Archive) (i : PackageIdentity)
    (fo : FilenameOutcome) (hreq : req ≠ [])
    (hlook : lookupFS fs src = some arch)
    (hparse : parse_identity src.fname = .ok i)
    (hmf : merge_filename i req = .ok fo)
    (hold : lookupFS fs
      (resolve_dest src output_dir (out_fname src.fname fo)) = some old)
    (hne : resolve_dest src output_dir (out_fname src.fname fo) ≠ src) :
    synchronize_tags fs src req output_dir false =
      (.error .DestinationExistsError, fs) ∧
    synchronize_tags fs src req output_dir true =
      (.ok (some (resolve_dest src output_dir (out_fname src.fname fo))),
       insertFS fs (resolve_dest src output_dir (out_fname src.fname fo))
         { arch with manifest := (merge_manifest arch.manifest req).1 }) ∧
    lookupFS (synchronize_tags fs src req output_dir true).2
        (resolve_dest src output_dir (out_fname src.fname fo)) =
      some { arch with manifest := (merge_manifest arch.manifest req).1 } := by
  have hnoop : ¬((merge_manifest arch.manifest req).2 = false ∧
      resolve_dest src output_dir (out_fname src.fname fo) = src) := by
    rintro ⟨_, h2⟩
    exact hne h2
  have hsome : (lookupFS fs
      (resolve_dest src output_dir (out_fname src.fname fo))).isSome =
        true := by
    rw [hold]
    rfl
  have h1 : synchronize_tags fs src req output_dir false =
      (.error .DestinationExistsError, fs) := by
    simp only [synchronize_tags, if_neg hreq, hlook, hparse, hmf]
    rw [if_neg hnoop, if_pos]
    exact ⟨hsome, hne, trivial⟩
  have h2 : synchronize_tags fs src req output_dir true =
      (.ok (some (resolve_dest src output_dir (out_fname src.fname fo))),
       insertFS fs (resolve_dest src output_dir (out_fname src.fname fo))
         { arch with manifest := (merge_manifest arch.manifest req).1 }) := by
    simp only [synchronize_tags, if_neg hreq, hlook, hparse, hmf]
    rw [if_neg hnoop, if_neg]
    rintro ⟨_, _, hc⟩
    exact Bool.noConfusion hc
  refine ⟨h1, h2, ?_⟩
  rw [h2]
  exact lookupFS_insertFS_self _ _ _

/-- Witness for claim C2: the destination stem `p-1-c-d-e.f` is already
occupied by an unrelated archive. -/
theorem claim_C2_witness :
    synchronize_tags
        [({ dir := ['t'], fname :=
              ['p', '-', '1', '-', 'c', '-', 'd', '-', 'e'] },
          { manifest := [], payload := [] }),
         ({ dir := ['t'], fname :=
              ['p', '-', '1', '-', 'c', '-', 'd', '-', 'e', '.', 'f'] },
          { manifest := [WheelLine.other ['z']], payload := [] })]
        { dir := ['t'], fname :=
            ['p', '-', '1', '-', 'c', '-', 'd', '-', 'e'] }
        [['f']] none false =
      (.error .DestinationExistsError,
       [({ dir := ['t'], fname :=
             ['p', '-', '1', '-', 'c', '-', 'd', '-', 'e'] },
         { manifest := [], payload := [] }),
        ({ dir := ['t'], fname :=
             ['p', '-', '1', '-', 'c', '-', 'd', '-', 'e', '.', 'f'] },
         { manifest := [WheelLine.other ['z']], payload := [] })]) ∧
    synchronize_tags
        [({ dir := ['t'], fname :=
              ['p', '-', '1', '-', 'c', '-', 'd', '-', 'e'] },
          { manifest := [], payload := [] }),
         ({ dir := ['t'], fname :=
              ['p', '-', '1', '-', 'c', '-', 'd', '-', 'e', '.', 'f'] },
          { manifest := [WheelLine.other ['z']], payload := [] })]
        { dir := ['t'], fname :=
            ['p', '-', '1', '-', 'c', '-', 'd', '-', 'e'] }
        [['f']] none true =
      (.ok (some (resolve_dest
          { dir := ['t'], fname :=
              ['p', '-', '1', '-', 'c', '-', 'd', '-', 'e'] }
          none
          (out_fname ['p', '-', '1', '-', 'c', '-', 'd', '-', 'e']
            (FilenameOutcome.Renamed
              { name := ['p'], version := ['1'], python_tag := ['c'],
                abi_tag := ['d'],
                platform_tag := mergedPlat [['e']] [['f']] })))),
       insertFS
         [({ dir := ['t'], fname :=
               ['p', '-', '1', '-', 'c', '-', 'd', '-', 'e'] },
           { manifest := [], payload := [] }),
          ({ dir := ['t'], fname :=
               ['p', '-', '1', '-', 'c', '-', 'd', '-', 'e', '.', 'f'] },
           { manifest := [WheelLine.other ['z']], payload := [] })]
         (resolve_dest
           { dir := ['t'], fname :=
               ['p', '-', '1', '-', 'c', '-', 'd', '-', 'e'] }
           none
           (out_fname ['p', '-', '1', '-', 'c', '-', 'd', '-', 'e']
             (FilenameOutcome.Renamed
               { name := ['p'], version := ['1'], python_tag := ['c'],
                 abi_tag := ['d'],
                 platform_tag := mergedPlat [['e']] [['f']] })))
         { manifest := (merge_manifest [] [['f']]).1, payload := [] }) ∧
    lookupFS
        (synchronize_tags
          [({ dir := ['t'], fname :=
                ['p', '-', '1', '-', 'c', '-', 'd', '-', 'e'] },
            { manifest := [], payload := [] }),
           ({ dir := ['t'], fname :=
                ['p', '-', '1', '-', 'c', '-', 'd', '-', 'e', '.', 'f'] },
            { manifest := [WheelLine.other ['z']], payload := [] })]
          { dir := ['t'], fname :=
              ['p', '-', '1', '-', 'c', '-', 'd', '-', 'e'] }
          [['f']] none true).2
        (resolve_dest
          { dir := ['t'], fname :=
              ['p', '-', '1', '-', 'c', '-', 'd', '-', 'e'] }
          none
          (out_fname ['p', '-', '1', '-', 'c', '-', 'd', '-', 'e']
            (FilenameOutcome.Renamed
              { name := ['p'], version := ['1'], python_tag := ['c'],
                abi_tag := ['d'],
                platform_tag := mergedPlat [['e']] [['f']] }))) =
      some { manifest := (merge_manifest [] [['f']]).1, payload := [] } :=
  claim_C2_clobber_guard _ _ _ _
    { manifest := [], payload := [] }
    { manifest := [WheelLine.other ['z']], payload := [] }
    { name := ['p'], version := ['1'], python_tag := ['c'],
      abi_tag := ['d'], platform_tag := [['e']] }
    (FilenameOutcome.Renamed
      { name := ['p'], version := ['1'], python_tag := ['c'],
        abi_tag := ['d'], platform_tag := mergedPlat [['e']] [['f']] })
    (by decide) (by decide) rfl rfl rfl (by decide)

/-- Claim C5: the two mergers are independent — when the filename merger
returns `Unchanged` but the manifest merger reports a change, the archive
is still rewritten: `synchronize_tags` reports a written path (with
`clobber` set, as the unchanged filename makes the destination collide with
or equal existing files) and the file stored there carries the patched
manifest. -/
theorem claim_C5_independence (fs : FS) (src : WPath) (req : List Str)
    (output_dir : Option Str) (arch : Archive) (i : PackageIdentity)
    (hreq : req ≠ []) (hlook : lookupFS fs src = some arch)
    (hparse : parse_identity src.fname = .ok i)
    (hmf : merge_filename i req = .ok .Unchanged)
    (hman : (merge_manifest arch.manifest req).2 = true) :
    (synchronize_tags fs src req output_dir true).1 =
      .ok (some (resolve_dest src output_dir src.fname)) ∧
    lookupFS (synchronize_tags fs src req output_dir true).2
        (resolve_dest src output_dir src.fname) =
      some { arch with manifest := (merge_manifest arch.manifest req).1 } := by
  have hnoop : ¬((merge_manifest arch.manifest req).2 = false ∧
      resolve_dest src output_dir (out_fname src.fname .Unchanged) = src) := by
    rintro ⟨h1, _⟩
    rw [hman] at h1
    exact Bool.noConfusion h1
  have hrun : synchronize_tags fs src req output_dir true =
      (.ok (some (resolve_dest src output_dir src.fname)),
       insertFS fs (resolve_dest src output_dir src.fname)
         { arch with manifest := (merge_manifest arch.manifest req).1 }) := by
    simp only [synchronize_tags, if_neg hreq, hlook, hparse, hmf]
    rw [if_neg hnoop, if_neg]
    · rfl
    · rintro ⟨_, _, hc⟩
      exact Bool.noConfusion hc
  rw [hrun]
  exact ⟨rfl, lookupFS_insertFS_self _ _ _⟩

/-- Witness for claim C5: the filename stem `p-1-c-d-e.f` already carries
both requested sub-tags but the manifest lacks the `c-d-f` triple. -/
theorem claim_C5_witness :
    (synchronize_tags
        [({ dir := ['t'], fname :=
              ['p', '-', '1', '-', 'c', '-', 'd', '-', 'e', '.', 'f'] },
          { manifest :=
              [WheelLine.tag { py := ['c'], abi := ['d'], plat := ['e'] }],
            payload := [] })]
        { dir := ['t'], fname :=
            ['p', '-', '1', '-', 'c', '-', 'd', '-', 'e', '.', 'f'] }
        [['f']] none true).1 =
      .ok (some (resolve_dest
        { dir := ['t'], fname :=
            ['p', '-', '1', '-', 'c', '-', 'd', '-', 'e', '.', 'f'] }
        none
        ['p', '-', '1', '-', 'c', '-', 'd', '-', 'e', '.', 'f'])) ∧
    lookupFS
        (synchronize_tags
          [({ dir := ['t'], fname :=
                ['p', '-', '1', '-', 'c', '-', 'd', '-', 'e', '.', 'f'] },
            { manifest :=
                [WheelLine.tag { py := ['c'], abi := ['d'], plat := ['e'] }],
              payload := [] })]
          { dir := ['t'], fname :=
              ['p', '-', '1', '-', 'c', '-', 'd', '-', 'e', '.', 'f'] }
          [['f']] none true).2
        (resolve_dest
          { dir := ['t'], fname :=
              ['p', '-', '1', '-', 'c', '-', 'd', '-', 'e', '.', 'f'] }
          none
          ['p', '-', '1', '-', 'c', '-', 'd', '-', 'e', '.', 'f']) =
      some { manifest :=
               (merge_manifest
                 [WheelLine.tag { py := ['c'], abi := ['d'], plat := ['e'] }]
                 [['f']]).1,
             payload := [] } :=
  claim_C5_independence _ _ _ _
    { manifest :=
        [WheelLine.tag { py := ['c'], abi := ['d'], plat := ['e'] }],
      payload := [] }
    { name := ['p'], version := ['1'], python_tag := ['c'],
      abi_tag := ['d'], platform_tag := [['e'], ['f']] }
    (by decide) (by decide) rfl rfl rfl

theorem resolve_dest_fname (src : WPath) (od : Option Str) (f : Str) :
    (resolve_dest src od f).fname = f := rfl

theorem resolve_dest_idem (src : WPath) (od : Option Str) (f : Str) :
    resolve_dest (resolve_dest src od f) od f = resolve_dest src od f := by
  cases od <;> rfl

theorem uniqueFirst_of_all_eq {α : Type} [DecidableEq α] {l : List α} {a : α}
    (hne : l ≠ []) (h : ∀ x ∈ l, x = a) : uniqueFirst l = [a] := by
  cases l with
  | nil => exact absurd rfl hne
  | cons b l =>
    have hb : b = a := h b (List.mem_cons_self b l)
    subst hb
    simp only [uniqueFirst]
    congr 1
    refine List.filter_eq_nil_iff.mpr ?_
    intro x hx
    have hxa := h x (List.mem_cons_of_mem b ((mem_uniqueFirst l x).mp hx))
    simp [hxa]

theorem exists_ne_anyTag {i : PackageIdentity} (hne : i.platform_tag ≠ [])
    (hpure : is_pure i = false) : ∃ x ∈ i.platform_tag, x ≠ anyTag := by
  by_contra h
  push_neg at h
  rw [is_pure, uniqueFirst_of_all_eq hne h] at hpure
  simp at hpure

theorem is_pure_false_of_mem_ne {j : PackageIdentity} {x : Str}
    (hx : x ∈ j.platform_tag) (hxne : x ≠ anyTag) : is_pure j = false := by
  rw [is_pure, decide_eq_false_iff_not]
  intro h
  have hm := (mem_uniqueFirst j.platform_tag x).mpr hx
  rw [h, List.mem_singleton] at hm
  exact hxne hm

/-- Claim C3: `synchronize_tags` is idempotent — applied with the same
requested tags and output directory to its own prior output it returns
`none` (no change needed), produces no new file, and leaves the prior
output and the whole filesystem unchanged. -/
theorem claim_C3_idempotent (fs fs₂ : FS) (src q : WPath) (req : List Str)
    (output_dir : Option Str) (clobber clobber' : Bool)
    (i : PackageIdentity)
    (hparse : parse_identity src.fname = .ok i)
    (hval : validIdentity i)
    (hreqv : ∀ t ∈ req, validSubTag t ∧ '-' ∉ t)
    (hrun : synchronize_tags fs src req output_dir clobber =
      (.ok (some q), fs₂)) :
    synchronize_tags fs₂ q req output_dir clobber' = (.ok none, fs₂) := by
  by_cases hreq : req = []
  · rw [hreq] at hrun
    simp [synchronize_tags] at hrun
  rw [synchronize_tags, if_neg hreq] at hrun
  cases hlook : lookupFS fs src with
  | none =>
    rw [hlook] at hrun
    simp at hrun
  | some arch =>
  rw [hlook, hparse] at hrun
  dsimp only at hrun
  cases hmf : merge_filename i req with
  | error e =>
    rw [hmf] at hrun
    simp at hrun
  | ok fo =>
  rw [hmf] at hrun
  dsimp only at hrun
  by_cases h₁ : (merge_manifest arch.manifest req).2 = false ∧
      resolve_dest src output_dir (out_fname src.fname fo) = src
  · rw [if_pos h₁] at hrun
    simp at hrun
  rw [if_neg h₁] at hrun
  by_cases h₂ : (lookupFS fs (resolve_dest src output_dir
        (out_fname src.fname fo))).isSome = true ∧
      resolve_dest src output_dir (out_fname src.fname fo) ≠ src ∧
      clobber = false
  · rw [if_pos h₂] at hrun
    simp at hrun
  rw [if_neg h₂, Prod.mk.injEq] at hrun
  obtain ⟨hq1, hq2⟩ := hrun
  have hqd : resolve_dest src output_dir (out_fname src.fname fo) = q :=
    Option.some.inj (Except.ok.inj hq1)
  subst hqd
  subst hq2
  have hlook₂ : lookupFS
      (insertFS fs (resolve_dest src output_dir (out_fname src.fname fo))
        { arch with manifest := (merge_manifest arch.manifest req).1 })
      (resolve_dest src output_dir (out_fname src.fname fo)) =
      some { arch with manifest := (merge_manifest arch.manifest req).1 } :=
    lookupFS_insertFS_self _ _ _
  rw [synchronize_tags, if_neg hreq, hlook₂]
  dsimp only
  have hmm₂ : merge_manifest (merge_manifest arch.manifest req).1 req =
      ((merge_manifest arch.manifest req).1, false) :=
    merge_manifest_idem arch.manifest req
  cases fo with
  | Unchanged =>
    have hfname : (resolve_dest src output_dir
        (out_fname src.fname .Unchanged)).fname = src.fname := rfl
    rw [hfname, hparse]
    dsimp only
    rw [hmf]
    dsimp only
    rw [if_pos]
    constructor
    · rw [hmm₂]
    · exact resolve_dest_idem src output_dir src.fname
  | Renamed j =>
    obtain ⟨hj, hnall⟩ := merge_filename_renamed hmf
    subst hj
    have hfname : (resolve_dest src output_dir
        (out_fname src.fname (.Renamed
          { i with platform_tag := mergedPlat i.platform_tag req }))).fname =
        serialize_identity
          { i with platform_tag := mergedPlat i.platform_tag req } := rfl
    have hvalj : validIdentity
        { i with platform_tag := mergedPlat i.platform_tag req } :=
      validIdentity_merged hval hreqv
    have hparse₂ := parse_serialize_identity _ hvalj
    rw [hfname, hparse₂]
    dsimp only
    have hpure_i : is_pure i = false := merge_filename_not_pure hreq hmf
    obtain ⟨x, hx, hxne⟩ := exists_ne_anyTag hval.2.2.2.2.1 hpure_i
    have hpure₂ : is_pure
        { { i with platform_tag := mergedPlat i.platform_tag req } with
          platform_tag := sortTags (mergedPlat i.platform_tag req) } =
          false :=
      is_pure_false_of_mem_ne
        (mem_sortTags.mpr (mem_mergedPlat.mpr (Or.inl hx))) hxne
    have hmf₂ : merge_filename
        { { i with platform_tag := mergedPlat i.platform_tag req } with
          platform_tag := sortTags (mergedPlat i.platform_tag req) } req =
        .ok .Unchanged := by
      refine merge_filename_unchanged ?_ ?_
      · rintro ⟨hc, _⟩
        rw [hpure₂] at hc
        exact Bool.noConfusion hc
      · intro t ht
        exact mem_sortTags.mpr (mem_mergedPlat.mpr (Or.inr ht))
    rw [hmf₂]
    dsimp only
    rw [if_pos]
    constructor
    · rw [hmm₂]
    · exact resolve_dest_idem src output_dir _

/-- Witness for claim C3: a concrete one-archive filesystem; the first run
renames `p-1-c-d-e` to `p-1-c-d-e.f` and patches the manifest, and the
second run on that output is a no-op. -/
theorem claim_C3_witness :
    synchronize_tags
        [({ dir := ['t'], fname :=
              ['p', '-', '1', '-', 'c', '-', 'd', '-', 'e', '.', 'f'] },
          { manifest :=
              [WheelLine.tag { py := ['c'], abi := ['d'], plat := ['e'] },
               WheelLine.tag { py := ['c'], abi := ['d'], plat := ['f'] }],
            payload := [(['x'], ['y'])] }),
         ({ dir := ['t'], fname :=
              ['p', '-', '1', '-', 'c', '-', 'd', '-', 'e'] },
          { manifest :=
              [WheelLine.tag { py := ['c'], abi := ['d'], plat := ['e'] }],
            payload := [(['x'], ['y'])] })]
        { dir := ['t'], fname :=
            ['p', '-', '1', '-', 'c', '-', 'd', '-', 'e', '.', 'f'] }
        [['f']] none true =
      (.ok none,
       [({ dir := ['t'], fname :=
             ['p', '-', '1', '-', 'c', '-', 'd', '-', 'e', '.', 'f'] },
         { manifest :=
             [WheelLine.tag { py := ['c'], abi := ['d'], plat := ['e'] },
              WheelLine.tag { py := ['c'], abi := ['d'], plat := ['f'] }],
           payload := [(['x'], ['y'])] }),
        ({ dir := ['t'], fname :=
             ['p', '-', '1', '-', 'c', '-', 'd', '-', 'e'] },
         { manifest :=
             [WheelLine.tag { py := ['c'], abi := ['d'], plat := ['e'] }],
           payload := [(['x'], ['y'])] })]) :=
  claim_C3_idempotent
    [({ dir := ['t'], fname :=
          ['p', '-', '1', '-', 'c', '-', 'd', '-', 'e'] },
      { manifest :=
          [WheelLine.tag { py := ['c'], abi := ['d'], plat := ['e'] }],
        payload := [(['x'], ['y'])] })]
    [({ dir := ['t'], fname :=
          ['p', '-', '1', '-', 'c', '-', 'd', '-', 'e', '.', 'f'] },
      { manifest :=
          [WheelLine.tag { py := ['c'], abi := ['d'], plat := ['e'] },
           WheelLine.tag { py := ['c'], abi := ['d'], plat := ['f'] }],
        payload := [(['x'], ['y'])] }),
     ({ dir := ['t'], fname :=
          ['p', '-', '1', '-', 'c', '-', 'd', '-', 'e'] },
      { manifest :=
          [WheelLine.tag { py := ['c'], abi := ['d'], plat := ['e'] }],
        payload := [(['x'], ['y'])] })]
    { dir := ['t'], fname := ['p', '-', '1', '-', 'c', '-', 'd', '-', 'e'] }
    { dir := ['t'], fname :=
        ['p', '-', '1', '-', 'c', '-', 'd', '-', 'e', '.', 'f'] }
    [['f']] none false true
    { name := ['p'], version := ['1'], python_tag := ['c'],
      abi_tag := ['d'], platform_tag := [['e']] }
    rfl (by decide) (by decide) rfl

/-- From src/delocate/cmd/delocate_addplat.py lines 107-110: the format
string `macosx_{0}_{1}` applied to an OSX version and an architecture
name. -/
def fmtMacosx (ver arch : Str) : Str :=
  ['m', 'a', 'c', 'o', 's', 'x', '_'] ++ ver ++ '_' :: arch

/-- The literal architecture name `x86_64` of
src/delocate/cmd/delocate_addplat.py line 109. -/
def x86_64Str : Str := ['x', '8', '6', '_', '6', '4']

/-- From src/delocate/cmd/delocate_addplat.py line 88: the argparse default
for `--dual-arch-type` is `intel`. -/
def dual_arch_type_default : Str := ['i', 'n', 't', 'e', 'l']

/-- From src/delocate/cmd/delocate_addplat.py lines 105-110: the loop
`for ver in args.osx_ver` appending the two derived tags for each version
to the accumulated `plat_tags`. -/
def addOsxVerTags (dat : Str) : List Str → List Str → List Str
  | acc, [] => acc
  | acc, v :: vs =>
    addOsxVerTags dat (acc ++ [fmtMacosx v dat, fmtMacosx v x86_64Str]) vs

/-- From src/delocate/cmd/delocate_addplat.py lines 104-110: `plat_tags`
starts as the `--plat-tag` values (empty when the flag was not given, i.e.
`args.plat_tag is None`) and then gains the tags derived from each
`--osx-ver` value. -/
def buildPlatTags (plat_tag osx_ver : Option (List Str)) (dat : Str) :
    List Str :=
  match osx_ver with
  | none => (match plat_tag with | none => [] | some l => l)
  | some vs =>
    addOsxVerTags dat (match plat_tag with | none => [] | some l => l) vs

/-- The outcome of a driver run: the `RuntimeError` raised when no tag was
requested, a `WheelToolsError` escaping the loop (when `--skip-errors` is
unset), or completion. -/
inductive DriverOutcome where
  | runtimeError
  | wheelToolsError (e : WheelError)
  | done
deriving DecidableEq

/-- From src/delocate/cmd/delocate_addplat.py lines 113-128: the loop over
the wheels, calling `add_platforms` (modelled by `synchronize_tags`) and
either skipping or propagating a `WheelToolsError` (`--rm-orig` deletes the
source wheel after a rename and is needed by no claim, so it is left
out). -/
def processWheels (fs : FS) (wheels : List WPath) (tags : List Str)
    (wheel_dir : Option Str) (clobber skip_errors : Bool) :
    DriverOutcome × FS :=
  match wheels with
  | [] => (.done, fs)
  | w :: ws =>
    match synchronize_tags fs w tags wheel_dir clobber with
    | (.error e, fs') =>
      if skip_errors then
        processWheels fs' ws tags wheel_dir clobber skip_errors
      else (.wheelToolsError e, fs')
    | (.ok _, fs') =>
      processWheels fs' ws tags wheel_dir clobber skip_errors

/-- From src/delocate/cmd/delocate_addplat.py `main`, lines 94-128: build
the requested tags, raise `RuntimeError` when none were given (lines
111-112), else process every wheel. -/
def main (fs : FS) (wheels : List WPath)
    (plat_tag osx_ver : Option (List Str)) (wheel_dir : Option Str)
    (dat : Str) (clobber skip_errors : Bool) : DriverOutcome × FS :=
  if buildPlatTags plat_tag osx_ver dat = [] then (.runtimeError, fs)
  else processWheels fs wheels (buildPlatTags plat_tag osx_ver dat)
    wheel_dir clobber skip_errors

/-- From src/delocate/cmd/delocate_addplat.py line 22: the import
`from os.path import join as exists` binds the name `exists` to
`os.path.join`, and `os.path.join` called with a single path argument
returns that path unchanged. -/
def os_path_join1 (path : Str) : Str := path

/-- Python truthiness of a string: false exactly on the empty string. -/
def truthy (s : Str) : Bool := decide (s ≠ [])

/-- From src/delocate/cmd/delocate_addplat.py lines 98-103: `os.makedirs`
runs iff `--wheel-dir` was given and truthy and `not exists(wheel_dir)`
holds for the expanded directory, where `exists` is the binding of
line 22. -/
def makedirsCalled (wheel_dir_arg : Option Str)
    (expanduser : Str → Str) : Bool :=
  match wheel_dir_arg with
  | none => false
  | some w =>
    if truthy w then !truthy (os_path_join1 (expanduser w)) else false

/-- Claim C8: invoking the driver with no `-p` and no `-x` values raises
`RuntimeError` rather than proceeding, for every filesystem and every list
of input archives: `main` reports the error and the filesystem is
untouched. -/
theorem claim_C8_empty_request (fs : FS) (wheels : List WPath)
    (wheel_dir : Option Str) (dat : Str) (clobber skip_errors : Bool) :
    main fs wheels none none wheel_dir dat clobber skip_errors =
      (.runtimeError, fs) := by
  rw [main, if_pos]
  rfl

/-- Claim C9: for every invocation of `main` with a non-empty `--wheel-dir`
argument, the `os.makedirs` branch is unreachable and a missing output
directory is never created: the guard `not exists(wheel_dir)` always
evaluates false because `exists` is bound to `os.path.join`, which returns
the non-empty path string itself.  The hypothesis `hexp` records that
`os.path.expanduser` returns a non-empty path on non-empty input. -/
theorem claim_C9_makedirs_unreachable (w : Str) (expanduser : Str → Str)
    (hw : w ≠ []) (hexp : ∀ s, s ≠ [] → expanduser s ≠ []) :
    makedirsCalled (some w) expanduser = false := by
  have hew : expanduser w ≠ [] := hexp w hw
  rw [makedirsCalled, if_pos (by simp [truthy, hw])]
  simp [os_path_join1, truthy, hew]

/-- Witness for claim C9, with the identity function standing in for
`os.path.expanduser` and a concrete directory name. -/
theorem claim_C9_witness :
    makedirsCalled (some ['o', 'u', 't']) (fun s => s) = false :=
  claim_C9_makedirs_unreachable ['o', 'u', 't'] (fun s => s)
    (by decide) (fun s h => h)

/-- Claim C10: each `--osx-ver` value `v` contributes exactly the two tags
`macosx_v_<dual_arch_type>` followed by `macosx_v_x86_64` (the argparse
default for the dual-arch type being `dual_arch_type_default`, i.e.
`intel`), and all derived tags are appended after every `--plat-tag`
value, in the order the `--osx-ver` options were given. -/
theorem claim_C10_osx_ver_tags (pts vers : List Str) (dat : Str) :
    buildPlatTags (some pts) (some vers) dat =
      pts ++ vers.flatMap
        (fun v => [fmtMacosx v dat, fmtMacosx v x86_64Str]) := by
  suffices h : ∀ acc, addOsxVerTags dat acc vers =
      acc ++ vers.flatMap
        (fun v => [fmtMacosx v dat, fmtMacosx v x86_64Str]) by
    exact h pts
  induction vers with
  | nil =>
    intro acc
    simp [addOsxVerTags]
  | cons v vs ih =>
    intro acc
    rw [addOsxVerTags, ih]
    simp

end Delocate
